import Mathlib

/-!
Shallow embedding of the two stateful classes of `internetarchive/utils.py`
(`IterableToFileAdapter` and `IdentifierListAsItems`), together with the
pieces of Python list / slice semantics that their code depends on.

Conventions of the embedding:
* Python's `None` sentinel in a memoization slot is `Option.none`; a resolved
  item is `Option.some v`.  The item type is an arbitrary `α` (the resolver
  `session.get_item` returns Item objects).
* Exceptions are modelled by the `Except` monad over `PyExc`; stateful methods
  return their result together with the post-call object state and the trace
  of keys passed to the resolver (so that "the resolver is invoked at most
  once" is expressible).
* Python integer division `//` on the nonnegative operands that arise in
  slice-length computations agrees with `Int.ediv`, which is what we use.
-/

set_option maxHeartbeats 1000000

namespace IAUtils

/-- The kinds of Python exceptions the modelled code raises or observes.
`other` stands for any further exception an external resolver may raise. -/
inductive PyExc where
  | indexError
  | attributeError
  | valueError
  | other (msg : String)
  deriving DecidableEq, Repr

/-- Python index normalization for a sequence of length `n`: a negative index
counts from the end of the sequence. -/
def pyNorm (n : Nat) (i : Int) : Int := if i < 0 then i + n else i

/-- Python `l[i]` on a list with an integer index: negative indices count from
the end; an index outside `[-n, n)` raises `IndexError`. -/
def pyGetL {β : Type} (l : List β) (i : Int) : Except PyExc β :=
  if h : 0 ≤ pyNorm l.length i ∧ pyNorm l.length i < (l.length : Int) then
    .ok (l.get ⟨(pyNorm l.length i).toNat, by omega⟩)
  else .error .indexError

/-- Python `l[i] = x` on a list: same index rules as `pyGetL`, returns the
updated list. -/
def pySetL {β : Type} (l : List β) (i : Int) (x : β) : Except PyExc (List β) :=
  if 0 ≤ pyNorm l.length i ∧ pyNorm l.length i < (l.length : Int) then
    .ok (l.set (pyNorm l.length i).toNat x)
  else .error .indexError

/-- A Python `slice` object: each of `start`, `stop`, `step` may be `None`. -/
structure PySlice where
  start : Option Int
  stop : Option Int
  step : Option Int
  deriving DecidableEq, Repr

/-- `slice.indices(length)` exactly as CPython computes it: clamp `start` and
`stop` into range for the sign of `step`; `step = 0` raises `ValueError`. -/
def PySlice.indices (s : PySlice) (length : Nat) : Except PyExc (Int × Int × Int) :=
  let n : Int := length
  let step : Int := s.step.getD 1
  if step = 0 then .error .valueError else
  let lower : Int := if step < 0 then -1 else 0
  let upper : Int := if step < 0 then n - 1 else n
  let start : Int :=
    match s.start with
    | none => if step < 0 then upper else lower
    | some st => if st < 0 then max (st + n) lower else min st upper
  let stop : Int :=
    match s.stop with
    | none => if step < 0 then lower else upper
    | some sp => if sp < 0 then max (sp + n) lower else min sp upper
  .ok (start, stop, step)

/-- Number of elements of Python `range(start, stop, step)` (`step ≠ 0`).
All division operands are nonnegative, where `Int.ediv` agrees with
Python's floor division. -/
def pyRangeLen (start stop step : Int) : Nat :=
  if 0 < step then
    (if start < stop then (Int.ediv (stop - start - 1) step + 1).toNat else 0)
  else if step < 0 then
    (if stop < start then (Int.ediv (start - stop - 1) (-step) + 1).toNat else 0)
  else 0

/-- The elements of Python `range(start, stop, step)`, in iteration order. -/
def pyRange (start stop step : Int) : List Int :=
  (List.range (pyRangeLen start stop step)).map (fun k : Nat => start + step * (k : Int))

/-- Python list slicing `l[s]`: the elements at the indices selected by the
slice, in the slice's iteration order.  The selected indices are always in
range, so the `filterMap` drops nothing. -/
def pySliceL {β : Type} (l : List β) (s : PySlice) : Except PyExc (List β) :=
  match s.indices l.length with
  | .error e => .error e
  | .ok (st, sp, stp) => .ok ((pyRange st sp stp).filterMap (fun i => l[i.toNat]?))

/-- Helper for Python `list.index`: scan with a running position counter. -/
def pyIndexAux (x : String) : List String → Nat → Except PyExc Int
  | [], _ => .error .valueError
  | y :: ys, k => if y = x then .ok (k : Int) else pyIndexAux x ys (k + 1)

/-- Python `l.index(x)`: position of the first occurrence of `x`, raising
`ValueError` when `x` is absent. -/
def pyListIndexOf (l : List String) (x : String) : Except PyExc Int :=
  pyIndexAux x l 0

/-- `True` exactly on a slot that exists and is unset (`is None`). -/
def isUnset {α : Type} : Option (Option α) → Bool
  | some none => true
  | _ => false

/-- `IterableToFileAdapter.__init__(iterable, size)`: the iterable is consumed
chunk by chunk (chunks are byte strings, modelled as `List Nat`), `size` is
stored verbatim as the reported length. -/
structure IterableToFileAdapter where
  iterator : List (List Nat)
  length : Nat
  deriving DecidableEq, Repr

namespace IterableToFileAdapter

/-- The constructor: `iter(iterable)` starts at the head of the chunk list. -/
def init (iterable : List (List Nat)) (size : Nat) : IterableToFileAdapter :=
  { iterator := iterable, length := size }

/-- `read(size=-1)`: `size` is ignored; return `next(self.iterator, b'')`,
i.e. the next chunk, or the empty chunk once exhausted. -/
def read (a : IterableToFileAdapter) (size : Int) : List Nat × IterableToFileAdapter :=
  match a.iterator with
  | [] => ([], a)
  | c :: rest => (c, { a with iterator := rest })

/-- `__len__`: the declared length, unconditionally. -/
def len (a : IterableToFileAdapter) : Nat := a.length

/-- `k` successive `read()` calls, collecting the returned chunks in order. -/
def readN (a : IterableToFileAdapter) : Nat → List (List Nat) × IterableToFileAdapter
  | 0 => ([], a)
  | Nat.succ k =>
    let r := read a (-1)
    let rest := readN r.2 k
    (r.1 :: rest.1, rest.2)

end IterableToFileAdapter

/-- The constructor argument of `IdentifierListAsItems`: either a single bare
identifier string or a list of identifier strings. -/
inductive IdArg where
  | single (s : String)
  | list (l : List String)

/-- `IdentifierListAsItems`: identifier keys, one memoization slot per key
(`None` = unset), and the resolver collaborator `session.get_item`, which may
raise. -/
structure IdentifierListAsItems (α : Type) where
  ids : List String
  _items : List (Option α)
  session : String → Except PyExc α

namespace IdentifierListAsItems

variable {α : Type}

/-- `__init__`: a bare string is wrapped into a one-element list; the slot
list starts as `[None] * len(ids)`. -/
def init (idListOrSingleId : IdArg) (session : String → Except PyExc α) :
    IdentifierListAsItems α :=
  let ids :=
    match idListOrSingleId with
    | .list l => l
    | .single s => [s]
  { ids := ids, _items := List.replicate ids.length none, session := session }

/-- `__len__`: the number of keys. -/
def len (c : IdentifierListAsItems α) : Nat := c.ids.length

/-- One iteration of the `__getitem__` loop body:
`if self._items[i] is None: self._items[i] = self.session.get_item(self.ids[i])`.
Returns the outcome, the post-state, and the keys passed to the resolver. -/
def resolveSlot (c : IdentifierListAsItems α) (i : Int) :
    Except PyExc Unit × IdentifierListAsItems α × List String :=
  match pyGetL c._items i with
  | .error e => (.error e, c, [])
  | .ok (some _) => (.ok (), c, [])
  | .ok none =>
    match pyGetL c.ids i with
    | .error e => (.error e, c, [])
    | .ok key =>
      match c.session key with
      | .error e => (.error e, c, [key])
      | .ok v =>
        match pySetL c._items i (some v) with
        | .error e => (.error e, c, [key])
        | .ok items2 => (.ok (), { c with _items := items2 }, [key])

/-- The `__getitem__` loop over a list of integer indices; an exception stops
the loop but the mutations already performed persist. -/
def resolveLoop : IdentifierListAsItems α → List Int →
    Except PyExc Unit × IdentifierListAsItems α × List String
  | c, [] => (.ok (), c, [])
  | c, i :: rest =>
    match resolveSlot c i with
    | (.error e, c1, t1) => (.error e, c1, t1)
    | (.ok _, c1, t1) =>
      let r := resolveLoop c1 rest
      (r.1, r.2.1, t1 ++ r.2.2)

/-- `__getitem__` with an integer index: run the loop on `[idx]`, then return
`self._items[idx]`. -/
def getitem_int (c : IdentifierListAsItems α) (idx : Int) :
    Except PyExc (Option α) × IdentifierListAsItems α × List String :=
  match resolveLoop c [idx] with
  | (.error e, c1, t) => (.error e, c1, t)
  | (.ok _, c1, t) =>
    match pyGetL c1._items idx with
    | .error e => (.error e, c1, t)
    | .ok v => (.ok v, c1, t)

/-- `__getitem__` with a slice: run the loop over
`range(*idx.indices(len(self)))`, then return the list slice
`self._items[idx]`. -/
def getitem_slice (c : IdentifierListAsItems α) (s : PySlice) :
    Except PyExc (List (Option α)) × IdentifierListAsItems α × List String :=
  match s.indices c.ids.length with
  | .error e => (.error e, c, [])
  | .ok (st, sp, stp) =>
    match resolveLoop c (pyRange st sp stp) with
    | (.error e, c1, t) => (.error e, c1, t)
    | (.ok _, c1, t) =>
      match pySliceL c1._items s with
      | .error e => (.error e, c1, t)
      | .ok vs => (.ok vs, c1, t)

/-- `__getattr__(name)`: `try: return self[self.ids.index(name)] except
ValueError: raise AttributeError`.  Note the `try` block also covers the
resolution itself, so a `ValueError` raised by the resolver is translated
to `AttributeError` as well. -/
def getattr (c : IdentifierListAsItems α) (name : String) :
    Except PyExc (Option α) × IdentifierListAsItems α × List String :=
  let body :=
    match pyListIndexOf c.ids name with
    | .error e => (Except.error e, c, ([] : List String))
    | .ok i => getitem_int c i
  match body with
  | (.error .valueError, c1, t) => (.error .attributeError, c1, t)
  | r => r

end IdentifierListAsItems

/-! ### Basic facts about the embedded Python list operations -/

namespace IterableToFileAdapter

/-- `k` successive reads return the first `k` chunks, padding with the empty
chunk past exhaustion, and leave the iterator advanced by `k` with the
declared length untouched. -/
theorem readN_spec (a : IterableToFileAdapter) (k : Nat) :
    readN a k = ((List.range k).map (fun j => a.iterator.getD j []),
      ⟨a.iterator.drop k, a.length⟩) := by
  induction k generalizing a with
  | zero =>
    simp only [readN, List.range_zero, List.map_nil, List.drop_zero]
  | succ m ih =>
    rcases ha : a.iterator with _ | ⟨c0, rest⟩
    · have hread : read a (-1) = ([], a) := by unfold read; rw [ha]
      simp only [readN, hread, ih, ha, List.range_succ_eq_map, List.map_cons,
        List.map_map, List.drop_nil]
      refine congrArg₂ Prod.mk ?_ rfl
      exact congrArg₂ List.cons rfl (List.map_congr_left fun j _ => rfl)
    · have hread : read a (-1) = (c0, { a with iterator := rest }) := by
        unfold read; rw [ha]
      simp only [readN, hread, ih, ha, List.range_succ_eq_map, List.map_cons,
        List.map_map]
      refine congrArg₂ Prod.mk ?_ rfl
      exact congrArg₂ List.cons rfl (List.map_congr_left fun j _ => rfl)

end IterableToFileAdapter

section PyListLemmas

variable {β γ : Type}

theorem pyNorm_of_nonneg {n : Nat} {i : Int} (h : 0 ≤ i) : pyNorm n i = i := by
  simp [pyNorm, not_lt.mpr h]

theorem pyNorm_natCast (n : Nat) (j : Nat) : pyNorm n (j : Int) = j :=
  pyNorm_of_nonneg (Int.natCast_nonneg j)

theorem pyGetL_oob {l : List β} {i : Int}
    (h : ¬(0 ≤ pyNorm l.length i ∧ pyNorm l.length i < (l.length : Int))) :
    pyGetL l i = .error .indexError := by
  unfold pyGetL
  rw [dif_neg h]

theorem pyGetL_error_eq {l : List β} {i : Int} {e : PyExc}
    (h : pyGetL l i = .error e) : e = .indexError := by
  unfold pyGetL at h
  split at h
  · exact absurd h (by simp)
  · cases h; rfl

theorem pyGetL_ok_valid {l : List β} {i : Int} {x : β} (h : pyGetL l i = .ok x) :
    0 ≤ pyNorm l.length i ∧ pyNorm l.length i < (l.length : Int) := by
  unfold pyGetL at h
  split at h
  · assumption
  · exact absurd h (by simp)

theorem pyGetL_ok_getElem? {l : List β} {i : Int} {x : β} (h : pyGetL l i = .ok x) :
    l[(pyNorm l.length i).toNat]? = some x := by
  unfold pyGetL at h
  split at h
  case isTrue hv =>
    cases h
    rw [List.getElem?_eq_getElem (by omega)]
    rfl
  case isFalse => exact absurd h (by simp)

theorem pyGetL_of_getElem? {l : List β} {i : Int} {x : β}
    (hv : 0 ≤ pyNorm l.length i ∧ pyNorm l.length i < (l.length : Int))
    (h : l[(pyNorm l.length i).toNat]? = some x) :
    pyGetL l i = .ok x := by
  unfold pyGetL
  rw [dif_pos hv]
  rw [List.getElem?_eq_getElem (by omega)] at h
  cases h
  rfl

theorem pyGetL_isOk_congr {l : List β} {l' : List γ} (hlen : l'.length = l.length)
    {i : Int} {x : β} (h : pyGetL l i = .ok x) : ∃ y, pyGetL l' i = .ok y := by
  have hv := pyGetL_ok_valid h
  rw [← hlen] at hv
  refine ⟨l'.get ⟨(pyNorm l'.length i).toNat, by omega⟩, ?_⟩
  unfold pyGetL
  rw [dif_pos hv]

theorem pySetL_ok {l : List β} {i : Int} (x : β)
    (hv : 0 ≤ pyNorm l.length i ∧ pyNorm l.length i < (l.length : Int)) :
    pySetL l i x = .ok (l.set (pyNorm l.length i).toNat x) := by
  unfold pySetL
  rw [if_pos hv]

theorem pySetL_ok_eq {l l2 : List β} {i : Int} {x : β}
    (h : pySetL l i x = .ok l2) : l2 = l.set (pyNorm l.length i).toNat x := by
  unfold pySetL at h
  split at h
  · cases h; rfl
  · exact absurd h (by simp)

theorem pyGetL_set_self {l : List β} {i : Int} (x : β)
    (hv : 0 ≤ pyNorm l.length i ∧ pyNorm l.length i < (l.length : Int)) :
    pyGetL (l.set (pyNorm l.length i).toNat x) i = .ok x := by
  have hlen : (l.set (pyNorm l.length i).toNat x).length = l.length := by simp
  apply pyGetL_of_getElem? (by rw [hlen]; exact hv)
  rw [hlen]
  exact List.getElem?_set_eq_of_lt x (by omega)

end PyListLemmas

/-! ### Characterization of `resolveSlot` and `getitem_int` -/

namespace IdentifierListAsItems

variable {α : Type}

theorem resolveSlot_oob {c : IdentifierListAsItems α} {i : Int} {e : PyExc}
    (h : pyGetL c._items i = .error e) :
    resolveSlot c i = (.error e, c, []) := by
  unfold resolveSlot
  rw [h]

theorem resolveSlot_resolved {c : IdentifierListAsItems α} {i : Int} {v : α}
    (h : pyGetL c._items i = .ok (some v)) :
    resolveSlot c i = (.ok (), c, []) := by
  unfold resolveSlot
  rw [h]

theorem resolveSlot_unset_ok {c : IdentifierListAsItems α} {i : Int}
    (h : pyGetL c._items i = .ok none) {key : String}
    (hk : pyGetL c.ids i = .ok key) {v : α} (hv : c.session key = .ok v) :
    resolveSlot c i =
      (.ok (), { c with _items := c._items.set (pyNorm c._items.length i).toNat (some v) },
        [key]) := by
  unfold resolveSlot
  rw [h, hk]
  simp only [hv, pySetL_ok (some v) (pyGetL_ok_valid h)]

theorem resolveSlot_unset_err {c : IdentifierListAsItems α} {i : Int}
    (h : pyGetL c._items i = .ok none) {key : String}
    (hk : pyGetL c.ids i = .ok key) {e : PyExc} (he : c.session key = .error e) :
    resolveSlot c i = (.error e, c, [key]) := by
  unfold resolveSlot
  rw [h, hk]
  simp only [he]

theorem resolveLoop_single (c : IdentifierListAsItems α) (i : Int) :
    resolveLoop c [i] = resolveSlot c i := by
  unfold resolveLoop
  rcases hs : resolveSlot c i with ⟨r, c1, t1⟩
  cases r with
  | error e => rfl
  | ok u => cases u; simp [resolveLoop]

theorem getitem_int_oob {c : IdentifierListAsItems α} {idx : Int} {e : PyExc}
    (h : pyGetL c._items idx = .error e) :
    getitem_int c idx = (.error e, c, []) := by
  unfold getitem_int
  rw [resolveLoop_single, resolveSlot_oob h]

theorem getitem_int_resolved {c : IdentifierListAsItems α} {idx : Int} {v : α}
    (h : pyGetL c._items idx = .ok (some v)) :
    getitem_int c idx = (.ok (some v), c, []) := by
  unfold getitem_int
  rw [resolveLoop_single, resolveSlot_resolved h]
  simp [h]

theorem getitem_int_unset_ok {c : IdentifierListAsItems α} {idx : Int}
    (h : pyGetL c._items idx = .ok none) {key : String}
    (hk : pyGetL c.ids idx = .ok key) {v : α} (hv : c.session key = .ok v) :
    getitem_int c idx =
      (.ok (some v),
        { c with _items := c._items.set (pyNorm c._items.length idx).toNat (some v) },
        [key]) := by
  unfold getitem_int
  rw [resolveLoop_single, resolveSlot_unset_ok h hk hv]
  simp only []
  rw [pyGetL_set_self (some v) (pyGetL_ok_valid h)]

theorem getitem_int_unset_err {c : IdentifierListAsItems α} {idx : Int}
    (h : pyGetL c._items idx = .ok none) {key : String}
    (hk : pyGetL c.ids idx = .ok key) {e : PyExc} (he : c.session key = .error e) :
    getitem_int c idx = (.error e, c, [key]) := by
  unfold getitem_int
  rw [resolveLoop_single, resolveSlot_unset_err h hk he]

theorem resolveSlot_ids_oob {c : IdentifierListAsItems α} {i : Int}
    (h : pyGetL c._items i = .ok none) {e : PyExc}
    (hk : pyGetL c.ids i = .error e) :
    resolveSlot c i = (.error e, c, []) := by
  unfold resolveSlot
  rw [h, hk]

/-- `resolveSlot` never touches `ids` or `session`, never changes the number
of slots, and never changes a slot that is already resolved. -/
theorem resolveSlot_preserves (c : IdentifierListAsItems α) (i : Int) :
    (resolveSlot c i).2.1.ids = c.ids ∧
    (resolveSlot c i).2.1.session = c.session ∧
    (resolveSlot c i).2.1._items.length = c._items.length ∧
    ∀ (j : Nat) (w : α), c._items[j]? = some (some w) →
      (resolveSlot c i).2.1._items[j]? = some (some w) := by
  rcases hg : pyGetL c._items i with e | w
  · rw [resolveSlot_oob hg]
    exact ⟨rfl, rfl, rfl, fun _ _ h => h⟩
  · cases w with
    | some u =>
      rw [resolveSlot_resolved hg]
      exact ⟨rfl, rfl, rfl, fun _ _ h => h⟩
    | none =>
      rcases hk : pyGetL c.ids i with e | key
      · rw [resolveSlot_ids_oob hg hk]
        exact ⟨rfl, rfl, rfl, fun _ _ h => h⟩
      · rcases hs : c.session key with e | v
        · rw [resolveSlot_unset_err hg hk hs]
          exact ⟨rfl, rfl, rfl, fun _ _ h => h⟩
        · rw [resolveSlot_unset_ok hg hk hs]
          refine ⟨rfl, rfl, by simp, ?_⟩
          intro j w hj
          have hslot := pyGetL_ok_getElem? hg
          by_cases hji : j = (pyNorm c._items.length i).toNat
          · rw [hji] at hj
            rw [hslot] at hj
            exact absurd hj (by simp)
          · simpa [List.getElem?_set_ne (Ne.symm hji)] using hj

/-- The loop underlying `__getitem__` preserves the same state components. -/
theorem resolveLoop_preserves (c : IdentifierListAsItems α) (is : List Int) :
    (resolveLoop c is).2.1.ids = c.ids ∧
    (resolveLoop c is).2.1.session = c.session ∧
    (resolveLoop c is).2.1._items.length = c._items.length ∧
    ∀ (j : Nat) (w : α), c._items[j]? = some (some w) →
      (resolveLoop c is).2.1._items[j]? = some (some w) := by
  induction is generalizing c with
  | nil => exact ⟨rfl, rfl, rfl, fun _ _ h => h⟩
  | cons i rest ih =>
    have hslot := resolveSlot_preserves c i
    rcases hs : resolveSlot c i with ⟨r, c1, t1⟩
    rw [hs] at hslot
    cases r with
    | error e =>
      simp only [resolveLoop, hs]
      exact hslot
    | ok u =>
      cases u
      have hrest := ih c1
      simp only [resolveLoop, hs]
      refine ⟨?_, ?_, ?_, ?_⟩
      · rw [hrest.1, hslot.1]
      · rw [hrest.2.1, hslot.2.1]
      · rw [hrest.2.2.1, hslot.2.2.1]
      · intro j w hj
        exact hrest.2.2.2 j w (hslot.2.2.2 j w hj)

theorem resolveLoop_cons_ok {c c1 : IdentifierListAsItems α} {i : Int} {t1 : List String}
    (h : resolveSlot c i = (.ok (), c1, t1)) (rest : List Int) :
    resolveLoop c (i :: rest) =
      ((resolveLoop c1 rest).1, (resolveLoop c1 rest).2.1,
        t1 ++ (resolveLoop c1 rest).2.2) := by
  rcases hr : resolveLoop c1 rest with ⟨r1, c2, t2⟩
  unfold resolveLoop
  rw [h]
  show (let r := resolveLoop c1 rest; (r.1, r.2.1, t1 ++ r.2.2)) = _
  rw [hr]

/-- Full characterization of the `__getitem__` loop over distinct in-range
indices with a never-failing resolver: the loop succeeds; a slot ends
resolved to `resolver(keys[j])` exactly when it is selected and was unset,
and is untouched otherwise; the resolver is invoked exactly on the keys of
the selected unset slots, in loop order. -/
theorem resolveLoop_total (res : String → α) :
    ∀ (is : List Int) (c : IdentifierListAsItems α),
      c.session = (fun k => .ok (res k)) →
      c._items.length = c.ids.length →
      (∀ i ∈ is, 0 ≤ i ∧ i < (c._items.length : Int)) →
      is.Nodup →
      (resolveLoop c is).1 = .ok () ∧
      (∀ j : Nat, (resolveLoop c is).2.1._items[j]? =
        (if (j : Int) ∈ is ∧ isUnset c._items[j]? = true
         then some (some (res (c.ids.getD j "")))
         else c._items[j]?)) ∧
      (resolveLoop c is).2.2 =
        (is.filter (fun i => isUnset (c._items[i.toNat]?))).map
          (fun i => c.ids.getD i.toNat "")
  | [], c, hsess, hlen, hin, hnd => by
    refine ⟨rfl, ?_, rfl⟩
    intro j
    simp [resolveLoop]
  | i :: rest, c, hsess, hlen, hin, hnd => by
    have hi := hin i (List.mem_cons_self i rest)
    have hrest_in : ∀ i' ∈ rest, 0 ≤ i' ∧ i' < (c._items.length : Int) :=
      fun i' hi' => hin i' (List.mem_cons_of_mem i hi')
    have hnd_rest : rest.Nodup := (List.nodup_cons.mp hnd).2
    have hi_not : i ∉ rest := (List.nodup_cons.mp hnd).1
    have hnormi : pyNorm c._items.length i = i := pyNorm_of_nonneg hi.1
    have hitoNat : ((i.toNat : Int)) = i := Int.toNat_of_nonneg hi.1
    have hiNatlt : i.toNat < c._items.length := by omega
    rcases hslot : c._items[i.toNat]? with _ | w
    · rw [List.getElem?_eq_none_iff] at hslot
      omega
    · have hvalid : 0 ≤ pyNorm c._items.length i ∧
          pyNorm c._items.length i < (c._items.length : Int) := by
        rw [hnormi]
        exact hi
      cases w with
      | some u =>
        -- memoized slot: the loop body skips it entirely
        have hg : pyGetL c._items i = .ok (some u) := by
          apply pyGetL_of_getElem? hvalid
          rw [hnormi]
          exact hslot
        rw [resolveLoop_cons_ok (resolveSlot_resolved hg) rest]
        obtain ⟨ih1, ih2, ih3⟩ := resolveLoop_total res rest c hsess hlen hrest_in hnd_rest
        refine ⟨ih1, ?_, ?_⟩
        · intro j
          rw [ih2 j]
          by_cases hj : (j : Int) = i
          · have hj' : j = i.toNat := by omega
            subst hj'
            simp [isUnset, hslot]
          · by_cases hjr : (j : Int) ∈ rest <;> simp [List.mem_cons, hj, hjr]
        · rw [ih3, List.filter_cons]
          simp [isUnset, hslot]
      | none =>
        -- unset slot: resolve it, then run the rest on the updated state
        have hg : pyGetL c._items i = .ok none := by
          apply pyGetL_of_getElem? hvalid
          rw [hnormi]
          exact hslot
        have hidlt : i.toNat < c.ids.length := by omega
        have hkey : c.ids[i.toNat]? = some (c.ids.getD i.toNat "") := by
          rw [List.getD_eq_getElem?_getD]
          rcases hx : c.ids[i.toNat]? with _ | y
          · rw [List.getElem?_eq_none_iff] at hx
            omega
          · rfl
        have hidvalid : 0 ≤ pyNorm c.ids.length i ∧
            pyNorm c.ids.length i < (c.ids.length : Int) := by
          rw [pyNorm_of_nonneg hi.1]
          omega
        have hk : pyGetL c.ids i = .ok (c.ids.getD i.toNat "") := by
          apply pyGetL_of_getElem? hidvalid
          rw [pyNorm_of_nonneg hi.1]
          exact hkey
        have hs : c.session (c.ids.getD i.toNat "") = .ok (res (c.ids.getD i.toNat "")) := by
          rw [hsess]
        have hstep := resolveSlot_unset_ok hg hk hs
        rw [hnormi] at hstep
        rw [resolveLoop_cons_ok hstep rest]
        have hsess' : ({ c with
            _items := c._items.set i.toNat (some (res (c.ids.getD i.toNat ""))) }
              : IdentifierListAsItems α).session = fun k => .ok (res k) := hsess
        have hlen' : ({ c with
            _items := c._items.set i.toNat (some (res (c.ids.getD i.toNat ""))) }
              : IdentifierListAsItems α)._items.length = c.ids.length := by
          simp [hlen]
        have hin' : ∀ i' ∈ rest, 0 ≤ i' ∧ i' < (({ c with
            _items := c._items.set i.toNat (some (res (c.ids.getD i.toNat ""))) }
              : IdentifierListAsItems α)._items.length : Int) := by
          intro i' hi'
          have := hrest_in i' hi'
          simpa using this
        obtain ⟨ih1, ih2, ih3⟩ :=
          resolveLoop_total res rest _ hsess' (by simpa using hlen') hin' hnd_rest
        simp only [] at ih2 ih3
        refine ⟨ih1, ?_, ?_⟩
        · intro j
          rw [ih2 j]
          by_cases hj : j = i.toNat
          · subst hj
            have hset : (c._items.set i.toNat (some (res (c.ids.getD i.toNat ""))))[i.toNat]?
                = some (some (res (c.ids.getD i.toNat ""))) :=
              List.getElem?_set_eq_of_lt _ hiNatlt
            have hcondF : ¬(((i.toNat : Int) ∈ rest) ∧ isUnset
                ((c._items.set i.toNat (some (res (c.ids.getD i.toNat ""))))[i.toNat]?)
                  = true) := by
              intro hc
              rw [hset] at hc
              exact absurd hc.2 (by simp [isUnset])
            have hcondT : ((i.toNat : Int) ∈ i :: rest) ∧
                isUnset (c._items[i.toNat]?) = true := by
              constructor
              · rw [hitoNat]
                exact List.mem_cons_self i rest
              · rw [hslot]
                rfl
            rw [if_neg hcondF, if_pos hcondT, hset]
          · have hset : (c._items.set i.toNat (some (res (c.ids.getD i.toNat ""))))[j]?
                = c._items[j]? := List.getElem?_set_ne (Ne.symm hj)
            have hjne : (j : Int) ≠ i := fun he => hj (by omega)
            rw [hset]
            by_cases hjr : (j : Int) ∈ rest <;>
              simp [List.mem_cons, hjne, hjr]
        · rw [ih3]
          have hfilter : rest.filter (fun i' => isUnset
              ((c._items.set i.toNat (some (res (c.ids.getD i.toNat ""))))[i'.toNat]?))
              = rest.filter (fun i' => isUnset (c._items[i'.toNat]?)) := by
            apply List.filter_congr
            intro a ha
            have ha0 : 0 ≤ a := (hrest_in a ha).1
            have hane : a.toNat ≠ i.toNat := by
              intro hEq
              exact hi_not (by
                have haeq : a = i := by omega
                rw [← haeq]
                exact ha)
            rw [List.getElem?_set_ne (Ne.symm hane)]
          rw [hfilter, List.filter_cons]
          have hhead : isUnset (c._items[i.toNat]?) = true := by
            rw [hslot]
            rfl
          rw [hhead]
          simp

/-- `pyNorm` on a negative index adds the length. -/
theorem pyNorm_neg_add {n : Nat} {i : Int} (h0 : i < 0) : pyNorm n i = i + n := by
  simp [IAUtils.pyNorm, h0]

/-- A negative index in `[-n, 0)` reads the same element as the shifted
nonnegative index `i + n`. -/
theorem pyGetL_shift {β : Type} {l : List β} {i : Int} {n : Nat} (hn : l.length = n)
    (hneg : -(n : Int) ≤ i) (h0 : i < 0) :
    pyGetL l i = pyGetL l (i + n) := by
  subst hn
  unfold IAUtils.pyGetL
  simp only [pyNorm_neg_add h0,
    pyNorm_of_nonneg (show (0 : Int) ≤ i + l.length by omega)]

/-- Memoization: once `get(idx)` succeeded, a second `get(idx)` on the
post-state returns the same value, changes nothing, and never calls the
resolver; and the first call called it at most once. -/
theorem getitem_int_memo {c : IdentifierListAsItems α} {idx : Int} {v : Option α}
    (hlen : c._items.length = c.ids.length)
    (h1 : (getitem_int c idx).1 = .ok v) :
    getitem_int (getitem_int c idx).2.1 idx = (.ok v, (getitem_int c idx).2.1, []) ∧
    (getitem_int c idx).2.2.length ≤ 1 := by
  rcases hg : pyGetL c._items idx with e | w
  · rw [getitem_int_oob hg] at h1
    exact absurd h1 (by simp)
  · cases w with
    | some u =>
      rw [getitem_int_resolved hg] at h1 ⊢
      cases h1
      exact ⟨getitem_int_resolved hg, by simp⟩
    | none =>
      obtain ⟨key, hk⟩ := pyGetL_isOk_congr (hlen ▸ rfl : c.ids.length = c._items.length) hg
      rcases hs : c.session key with e | u
      · rw [getitem_int_unset_err hg hk hs] at h1
        exact absurd h1 (by simp)
      · rw [getitem_int_unset_ok hg hk hs] at h1 ⊢
        cases h1
        have hset : pyGetL
            (c._items.set (pyNorm c._items.length idx).toNat (some u)) idx =
            .ok (some u) := pyGetL_set_self (some u) (pyGetL_ok_valid hg)
        exact ⟨getitem_int_resolved hset, by simp⟩

/-- A negative index in `[-n, 0)` and the shifted index `i + n` produce the
same call: same result, same post-state, same resolver trace. -/
theorem getitem_int_shift {c : IdentifierListAsItems α} {idx : Int}
    (hlen : c._items.length = c.ids.length)
    (hneg : -(c.ids.length : Int) ≤ idx) (h0 : idx < 0) :
    getitem_int c idx = getitem_int c (idx + c.ids.length) := by
  have hgi : pyGetL c._items idx = pyGetL c._items (idx + c.ids.length) :=
    pyGetL_shift hlen hneg h0
  have hki : pyGetL c.ids idx = pyGetL c.ids (idx + c.ids.length) :=
    pyGetL_shift rfl hneg h0
  have hnorm : pyNorm c._items.length idx = pyNorm c._items.length (idx + c.ids.length) := by
    rw [pyNorm_neg_add h0, pyNorm_of_nonneg (by omega), hlen]
  rcases hg : pyGetL c._items idx with e | w
  · have he := pyGetL_error_eq hg
    cases he
    rw [getitem_int_oob hg, getitem_int_oob (hgi ▸ hg)]
  · cases w with
    | some u =>
      rw [getitem_int_resolved hg, getitem_int_resolved (hgi ▸ hg)]
    | none =>
      obtain ⟨key, hk⟩ := pyGetL_isOk_congr (hlen ▸ rfl : c.ids.length = c._items.length) hg
      rcases hs : c.session key with e | u
      · rw [getitem_int_unset_err hg hk hs, getitem_int_unset_err (hgi ▸ hg) (hki ▸ hk) hs]
      · rw [getitem_int_unset_ok hg hk hs, getitem_int_unset_ok (hgi ▸ hg) (hki ▸ hk) hs,
          hnorm]

end IdentifierListAsItems

theorem pyGetL_oob_of_notInrange {β : Type} {l : List β} {i : Int}
    (h : ¬(-(l.length : Int) ≤ i ∧ i < (l.length : Int))) :
    pyGetL l i = .error .indexError := by
  apply pyGetL_oob
  simp only [pyNorm]
  split <;> omega

theorem pyGetL_ok_of_inrange {β : Type} {l : List β} {i : Int}
    (h : -(l.length : Int) ≤ i ∧ i < (l.length : Int)) :
    ∃ x, pyGetL l i = .ok x := by
  have hv : 0 ≤ pyNorm l.length i ∧ pyNorm l.length i < (l.length : Int) := by
    simp only [pyNorm]
    split <;> omega
  exact ⟨_, by unfold pyGetL; rw [dif_pos hv]⟩

namespace IdentifierListAsItems

variable {α : Type}

/-- The post-state of an integer `get` is the post-state of its resolution
loop: the final read does not mutate. -/
theorem getitem_int_state (c : IdentifierListAsItems α) (idx : Int) :
    (getitem_int c idx).2.1 = (resolveLoop c [idx]).2.1 := by
  unfold getitem_int
  rcases hr : resolveLoop c [idx] with ⟨r, c1, t⟩
  cases r with
  | error e => rfl
  | ok u =>
    cases u
    rcases hv2 : pyGetL c1._items idx with e | w <;> simp only [hv2]

/-- Integer `get` never touches `ids` or `session`, never changes the slot
count, and never changes an already-resolved slot. -/
theorem getitem_int_preserves (c : IdentifierListAsItems α) (idx : Int) :
    (getitem_int c idx).2.1.ids = c.ids ∧
    (getitem_int c idx).2.1.session = c.session ∧
    (getitem_int c idx).2.1._items.length = c._items.length ∧
    ∀ (j : Nat) (w : α), c._items[j]? = some (some w) →
      (getitem_int c idx).2.1._items[j]? = some (some w) := by
  rw [getitem_int_state]
  exact resolveLoop_preserves c [idx]

/-- With a never-failing resolver, any in-range integer `get` succeeds. -/
theorem getitem_int_total_ok {c : IdentifierListAsItems α} {res : String → α}
    (hsess : c.session = fun k => .ok (res k))
    (hlen : c._items.length = c.ids.length) {idx : Int}
    (hin : -(c.ids.length : Int) ≤ idx ∧ idx < (c.ids.length : Int)) :
    ∃ v, (getitem_int c idx).1 = .ok v := by
  have hin' : -(c._items.length : Int) ≤ idx ∧ idx < (c._items.length : Int) := by
    rw [hlen]; exact hin
  obtain ⟨w, hg⟩ := pyGetL_ok_of_inrange hin'
  cases w with
  | some u => exact ⟨some u, by rw [getitem_int_resolved hg]⟩
  | none =>
    obtain ⟨key, hk⟩ := pyGetL_isOk_congr (hlen ▸ rfl : c.ids.length = c._items.length) hg
    have hs : c.session key = .ok (res key) := by rw [hsess]
    exact ⟨some (res key), by rw [getitem_int_unset_ok hg hk hs]⟩

end IdentifierListAsItems

/-! ### Facts about `range` and `slice.indices` -/

theorem pyRange_mem_bounds {st sp stp e : Int} (h : e ∈ pyRange st sp stp) :
    (0 < stp → st ≤ e ∧ e < sp) ∧ (stp < 0 → sp < e ∧ e ≤ st) := by
  unfold pyRange at h
  rw [List.mem_map] at h
  obtain ⟨k, hk, rfl⟩ := h
  rw [List.mem_range] at hk
  constructor
  · intro hstp
    unfold pyRangeLen at hk
    rw [if_pos hstp] at hk
    by_cases hlt : st < sp
    · rw [if_pos hlt] at hk
      have ha0 : (0 : Int) ≤ sp - st - 1 := by omega
      have hq0 : 0 ≤ (sp - st - 1).ediv stp := Int.ediv_nonneg ha0 (by omega)
      have hkq : (k : Int) ≤ (sp - st - 1).ediv stp := by omega
      have hmul : stp * (k : Int) ≤ stp * ((sp - st - 1).ediv stp) :=
        mul_le_mul_of_nonneg_left hkq (by omega)
      have hdiv : stp * ((sp - st - 1).ediv stp) + (sp - st - 1).emod stp
          = sp - st - 1 := Int.ediv_add_emod _ _
      have hmod : 0 ≤ (sp - st - 1).emod stp := Int.emod_nonneg _ (by omega)
      have hk0 : (0 : Int) ≤ stp * (k : Int) :=
        mul_nonneg (by omega) (Int.natCast_nonneg k)
      omega
    · rw [if_neg hlt] at hk
      omega
  · intro hstp
    unfold pyRangeLen at hk
    rw [if_neg (by omega), if_pos hstp] at hk
    by_cases hlt : sp < st
    · rw [if_pos hlt] at hk
      have ha0 : (0 : Int) ≤ st - sp - 1 := by omega
      have hq0 : 0 ≤ (st - sp - 1).ediv (-stp) := Int.ediv_nonneg ha0 (by omega)
      have hkq : (k : Int) ≤ (st - sp - 1).ediv (-stp) := by omega
      have hmul : (-stp) * (k : Int) ≤ (-stp) * ((st - sp - 1).ediv (-stp)) :=
        mul_le_mul_of_nonneg_left hkq (by omega)
      have hdiv : (-stp) * ((st - sp - 1).ediv (-stp)) + (st - sp - 1).emod (-stp)
          = st - sp - 1 := Int.ediv_add_emod _ _
      have hmod : 0 ≤ (st - sp - 1).emod (-stp) := Int.emod_nonneg _ (by omega)
      have hk0 : stp * (k : Int) ≤ 0 :=
        mul_nonpos_of_nonpos_of_nonneg (by omega) (Int.natCast_nonneg k)
      have hlink : (-stp) * (k : Int) = -(stp * (k : Int)) := neg_mul stp (k : Int)
      omega
    · rw [if_neg hlt] at hk
      omega

theorem pyRange_nodup (st sp stp : Int) (hstp : stp ≠ 0) :
    (pyRange st sp stp).Nodup := by
  unfold pyRange
  apply List.Nodup.map
  · intro k1 k2 hkeq
    have h1 : stp * (k1 : Int) = stp * (k2 : Int) := by
      exact add_left_cancel hkeq
    have h2 : (k1 : Int) = (k2 : Int) := mul_left_cancel₀ hstp h1
    exact_mod_cast h2
  · exact List.nodup_range _

/-- The clamping performed by `slice.indices`: a nonzero step, with `start`
and `stop` confined to `[0, n]` for a positive step and to `[-1, n-1]` for a
negative one. -/
theorem indices_ok_spec {s : PySlice} {n : Nat} {st sp stp : Int}
    (h : s.indices n = .ok (st, sp, stp)) :
    stp ≠ 0 ∧ (0 < stp → 0 ≤ st ∧ sp ≤ (n : Int)) ∧
      (stp < 0 → st ≤ (n : Int) - 1 ∧ -1 ≤ sp) := by
  rcases s with ⟨sta, sto, ste⟩
  rcases ste with _ | ste0 <;> rcases sta with _ | st0 <;> rcases sto with _ | sp0 <;>
    simp only [PySlice.indices, Option.getD_none, Option.getD_some] at h <;>
    split_ifs at h
  all_goals first
    | exact Except.noConfusion h
    | (simp only [Except.ok.injEq, Prod.mk.injEq] at h
       obtain ⟨h1, h2, h3⟩ := h
       subst h1
       subst h2
       subst h3
       exact ⟨by omega, fun hsgn => ⟨by omega, by omega⟩,
         fun hsgn => ⟨by omega, by omega⟩⟩)

/-- Every index selected by a valid slice over length `n` lies in `[0, n)`. -/
theorem indices_mem_range {s : PySlice} {n : Nat} {st sp stp : Int}
    (h : s.indices n = .ok (st, sp, stp)) :
    ∀ e ∈ pyRange st sp stp, 0 ≤ e ∧ e < (n : Int) := by
  obtain ⟨h0, hpos, hneg⟩ := indices_ok_spec h
  intro e he
  have hb := pyRange_mem_bounds he
  rcases lt_or_gt_of_ne h0 with hlt | hgt
  · have hb2 := hb.2 hlt
    have hn2 := hneg hlt
    omega
  · have hb1 := hb.1 hgt
    have hp1 := hpos hgt
    omega

theorem indices_step_ne {s : PySlice} {n : Nat} {st sp stp : Int}
    (h : s.indices n = .ok (st, sp, stp)) : stp ≠ 0 :=
  (indices_ok_spec h).1

/-- If a function is `some ∘ g` on every element, `filterMap` is `map g`. -/
theorem filterMap_eq_map_of {β γ : Type} {l : List β} {f : β → Option γ} {g : β → γ}
    (h : ∀ a ∈ l, f a = some (g a)) : l.filterMap f = l.map g := by
  induction l with
  | nil => rfl
  | cons x xs ih =>
    rw [List.filterMap_cons, h x (by simp), List.map_cons,
      ih (fun a ha => h a (by simp [ha]))]

/-! ### Facts about `list.index` -/

theorem pyIndexAux_error_eq {l : List String} {x : String} {k : Nat} {e : PyExc}
    (h : pyIndexAux x l k = .error e) : e = .valueError := by
  induction l generalizing k with
  | nil => cases h; rfl
  | cons y ys ih =>
    unfold pyIndexAux at h
    split at h
    · exact absurd h (by simp)
    · exact ih h

theorem pyIndexAux_error_not_mem {l : List String} {x : String} {k : Nat} {e : PyExc}
    (h : pyIndexAux x l k = .error e) : x ∉ l := by
  induction l generalizing k with
  | nil => simp
  | cons y ys ih =>
    unfold pyIndexAux at h
    split at h
    · exact absurd h (by simp)
    · next hne =>
      simp only [List.mem_cons, not_or]
      exact ⟨fun hx => hne (hx ▸ rfl), ih h⟩

theorem pyIndexAux_ok_of_mem {l : List String} {x : String} (hm : x ∈ l) (k : Nat) :
    ∃ i, pyIndexAux x l k = .ok i := by
  induction l generalizing k with
  | nil => exact absurd hm (by simp)
  | cons y ys ih =>
    unfold pyIndexAux
    by_cases hy : y = x
    · exact ⟨k, by rw [if_pos hy]⟩
    · rw [if_neg hy]
      have hmem : x ∈ ys := by
        rcases List.mem_cons.mp hm with h | h
        · exact absurd h.symm hy
        · exact h
      exact ih hmem (k + 1)

theorem pyIndexAux_ok_spec {l : List String} {x : String} {k : Nat} {i : Int}
    (h : pyIndexAux x l k = .ok i) :
    ∃ j : Nat, i = ((k + j : Nat) : Int) ∧ l[j]? = some x ∧
      ∀ j' < j, l[j']? ≠ some x := by
  induction l generalizing k with
  | nil => cases h
  | cons y ys ih =>
    unfold pyIndexAux at h
    split at h
    · next hy =>
      cases h
      exact ⟨0, by simp, by simp [hy], by omega⟩
    · next hy =>
      obtain ⟨j, hj1, hj2, hj3⟩ := ih h
      refine ⟨j + 1, ?_, by simpa using hj2, ?_⟩
      · rw [hj1]
        congr 1
        omega
      · intro j' hj'
        cases j' with
        | zero => simp [hy]
        | succ m => simpa using hj3 m (by omega)

/-- `l.index(x)` returns the position of the first occurrence of `x`. -/
theorem pyListIndexOf_ok_spec {l : List String} {x : String} {i : Int}
    (h : pyListIndexOf l x = .ok i) :
    ∃ j : Nat, i = (j : Int) ∧ l[j]? = some x ∧ ∀ j' < j, l[j']? ≠ some x := by
  obtain ⟨j, hj1, hj2, hj3⟩ := pyIndexAux_ok_spec h
  exact ⟨j, by simpa using hj1, hj2, hj3⟩

namespace IdentifierListAsItems

variable {α : Type}

/-- `__getattr__` when the name is not among the keys: the `ValueError` from
`list.index` is translated to `AttributeError`; nothing is resolved. -/
theorem getattr_absent {c : IdentifierListAsItems α} {name : String}
    (h : pyListIndexOf c.ids name = .error .valueError) :
    getattr c name = (.error .attributeError, c, []) := by
  unfold getattr
  rw [h]

/-- `__getattr__` when the name is found: the body is the integer `get` at
the found index, with a `ValueError` outcome translated to
`AttributeError`. -/
theorem getattr_found {c : IdentifierListAsItems α} {name : String} {i : Int}
    (h : pyListIndexOf c.ids name = .ok i) :
    getattr c name =
      match getitem_int c i with
      | (.error .valueError, c1, t) => (.error .attributeError, c1, t)
      | r => r := by
  unfold getattr
  rw [h]

/-- `__getattr__` when the name is found and the `get` succeeds: identical to
the integer `get` at the found index. -/
theorem getattr_found_ok {c : IdentifierListAsItems α} {name : String} {i : Int}
    (h : pyListIndexOf c.ids name = .ok i) {v : Option α}
    (hv : (getitem_int c i).1 = .ok v) :
    getattr c name = getitem_int c i := by
  rw [getattr_found h]
  rcases hg : getitem_int c i with ⟨r, c1, t⟩
  rw [hg] at hv
  cases r with
  | error e => exact absurd hv (by simp)
  | ok w => rfl

/-- `__getattr__` when the name is found and the `get` raises: the error
propagates, except that a `ValueError` is translated to `AttributeError`;
the post-state and resolver trace are those of the `get`. -/
theorem getattr_found_err {c : IdentifierListAsItems α} {name : String} {i : Int}
    (h : pyListIndexOf c.ids name = .ok i) {e : PyExc}
    (he : (getitem_int c i).1 = .error e) :
    getattr c name =
      (.error (if e = .valueError then .attributeError else e),
        (getitem_int c i).2.1, (getitem_int c i).2.2) := by
  rw [getattr_found h]
  rcases hg : getitem_int c i with ⟨r, c1, t⟩
  rw [hg] at he
  cases r with
  | ok w => exact absurd he (by simp)
  | error e' =>
    have heq : e' = e := by simpa using he
    rw [heq]
    cases e <;> rfl

/-- `__getitem__` with a slice whose `indices` succeed: loop over the
selected indices, then slice the item list. -/
theorem getitem_slice_eq {c : IdentifierListAsItems α} {s : PySlice}
    {st sp stp : Int} (hi : s.indices c.ids.length = .ok (st, sp, stp)) :
    getitem_slice c s =
      match resolveLoop c (pyRange st sp stp) with
      | (.error e, c1, t) => (.error e, c1, t)
      | (.ok _, c1, t) =>
        match pySliceL c1._items s with
        | .error e => (.error e, c1, t)
        | .ok vs => (.ok vs, c1, t) := by
  unfold getitem_slice
  rw [hi]

/-- Slice `get` never touches `ids` or `session`, never changes the slot
count, and never changes an already-resolved slot. -/
theorem getitem_slice_preserves (c : IdentifierListAsItems α) (s : PySlice) :
    (getitem_slice c s).2.1.ids = c.ids ∧
    (getitem_slice c s).2.1.session = c.session ∧
    (getitem_slice c s).2.1._items.length = c._items.length ∧
    ∀ (j : Nat) (w : α), c._items[j]? = some (some w) →
      (getitem_slice c s).2.1._items[j]? = some (some w) := by
  unfold getitem_slice
  split
  · exact ⟨rfl, rfl, rfl, fun _ _ h => h⟩
  · rename_i st sp stp hi
    split
    · rename_i hr
      have hpres := resolveLoop_preserves c (pyRange st sp stp)
      rw [hr] at hpres
      exact hpres
    · rename_i hr
      have hpres := resolveLoop_preserves c (pyRange st sp stp)
      rw [hr] at hpres
      split
      · exact hpres
      · exact hpres

/-- `__getattr__` never touches `ids` or `session`, never changes the slot
count, and never changes an already-resolved slot. -/
theorem getattr_preserves (c : IdentifierListAsItems α) (name : String) :
    (getattr c name).2.1.ids = c.ids ∧
    (getattr c name).2.1.session = c.session ∧
    (getattr c name).2.1._items.length = c._items.length ∧
    ∀ (j : Nat) (w : α), c._items[j]? = some (some w) →
      (getattr c name).2.1._items[j]? = some (some w) := by
  rcases hx : pyListIndexOf c.ids name with e | i
  · have he := pyIndexAux_error_eq hx
    subst he
    rw [getattr_absent hx]
    exact ⟨rfl, rfl, rfl, fun _ _ h => h⟩
  · have hpres := getitem_int_preserves c i
    rcases hv : (getitem_int c i).1 with e | v
    · rw [getattr_found_err hx hv]
      exact hpres
    · rw [getattr_found_ok hx hv]
      exact hpres

end IdentifierListAsItems

end IAUtils

/-! ## The claims -/

open IAUtils IAUtils.IdentifierListAsItems IAUtils.IterableToFileAdapter

/-- C1: for every collection (with the construction invariant
`len(keys) = len(resolved)`) and every integer index at which `get`
succeeds, calling `get(i)` twice invokes the resolver at most once in total
(at most once during the first call and never during the second), and both
calls return the identical resolved value. -/
theorem C1_get_twice_memoized {α : Type} (c : IAUtils.IdentifierListAsItems α)
    (idx : Int) (hlen : c._items.length = c.ids.length) (v : Option α)
    (h1 : (getitem_int c idx).1 = .ok v) :
    (getitem_int (getitem_int c idx).2.1 idx).1 = .ok v ∧
    (getitem_int (getitem_int c idx).2.1 idx).2.2 = [] ∧
    (getitem_int c idx).2.2.length ≤ 1 := by
  obtain ⟨h2, hle⟩ := getitem_int_memo hlen h1
  exact ⟨by rw [h2], by rw [h2], hle⟩

/-- Concrete collection used by the closed witnesses: keys `["a", "b"]`,
resolver mapping each key to its length. -/
def cW : IAUtils.IdentifierListAsItems Nat :=
  IAUtils.IdentifierListAsItems.init (.list ["a", "b"]) (fun k => .ok k.length)

/-- Witness for C1 at the collection `cW` and index `0`. -/
theorem C1_witness :
    (getitem_int (getitem_int cW 0).2.1 0).1 = .ok (some 1) ∧
    (getitem_int (getitem_int cW 0).2.1 0).2.2 = [] ∧
    (getitem_int cW 0).2.2.length ≤ 1 :=
  C1_get_twice_memoized cW 0 rfl (some 1) rfl

/-- C5: `read(size)` ignores its size argument; successive reads return the
source's chunks in order and the empty chunk once the source is exhausted;
`length()` returns the declared length before and after exhaustion.  The
quantified statement specializes to the spec's example
(`[b"ab", b"cd"]`, declared length 4). -/
theorem C5_stream_adapter (chunks : List (List Nat)) (n : Nat) (k : Nat) (s s' : Int)
    (a : IAUtils.IterableToFileAdapter) :
    IAUtils.IterableToFileAdapter.read a s = IAUtils.IterableToFileAdapter.read a s' ∧
    (readN (init chunks n) k).1 = (List.range k).map (fun j => chunks.getD j []) ∧
    len (readN (init chunks n) k).2 = n := by
  refine ⟨rfl, ?_, ?_⟩
  · rw [IAUtils.IterableToFileAdapter.readN_spec]
    rfl
  · rw [IAUtils.IterableToFileAdapter.readN_spec]
    rfl

/-- C8: constructing with the bare string `"foo"` and with the one-element
list `["foo"]` yields the very same state, hence identical length, `get`
(integer and slice) and `get_by_name` behaviour. -/
theorem C8_single_string_normalized {α : Type} (s : String)
    (session : String → Except IAUtils.PyExc α) :
    IAUtils.IdentifierListAsItems.init (.single s) session
      = IAUtils.IdentifierListAsItems.init (.list [s]) session ∧
    len (IAUtils.IdentifierListAsItems.init (.single s) session)
      = len (IAUtils.IdentifierListAsItems.init (.list [s]) session) ∧
    (∀ idx : Int, getitem_int (IAUtils.IdentifierListAsItems.init (.single s) session) idx
      = getitem_int (IAUtils.IdentifierListAsItems.init (.list [s]) session) idx) ∧
    (∀ sl : IAUtils.PySlice,
      getitem_slice (IAUtils.IdentifierListAsItems.init (.single s) session) sl
      = getitem_slice (IAUtils.IdentifierListAsItems.init (.list [s]) session) sl) ∧
    (∀ name : String,
      IAUtils.IdentifierListAsItems.getattr
          (IAUtils.IdentifierListAsItems.init (.single s) session) name
      = IAUtils.IdentifierListAsItems.getattr
          (IAUtils.IdentifierListAsItems.init (.list [s]) session) name) :=
  ⟨rfl, rfl, fun _ => rfl, fun _ => rfl, fun _ => rfl⟩

/-- C6: with the construction invariant and a never-failing resolver, an
integer index outside `[-n, n)` makes `get` fail with `IndexError`, leaving
the state untouched and never calling the resolver, while an index inside
`[-n, n)` succeeds and behaves exactly as the normalized index (`-k`
denotes slot `n - k`). -/
theorem C6_index_range {α : Type} (c : IAUtils.IdentifierListAsItems α)
    (res : String → α) (hsess : c.session = fun k => .ok (res k))
    (hlen : c._items.length = c.ids.length) (idx : Int) :
    (¬(-(c.ids.length : Int) ≤ idx ∧ idx < (c.ids.length : Int)) →
      getitem_int c idx = (.error .indexError, c, [])) ∧
    ((-(c.ids.length : Int) ≤ idx ∧ idx < (c.ids.length : Int)) →
      (∃ v, (getitem_int c idx).1 = .ok v) ∧
      getitem_int c idx = getitem_int c (IAUtils.pyNorm c.ids.length idx)) := by
  constructor
  · intro h
    have hg : pyGetL c._items idx = .error .indexError := by
      apply pyGetL_oob_of_notInrange
      rw [hlen]
      exact h
    exact getitem_int_oob hg
  · intro h
    refine ⟨getitem_int_total_ok hsess hlen h, ?_⟩
    by_cases h0 : idx < 0
    · rw [pyNorm_neg_add h0]
      exact getitem_int_shift hlen h.1 h0
    · rw [pyNorm_of_nonneg (by omega)]

/-- Witness for C6 at the collection `cW` and index `-1`. -/
theorem C6_witness :
    (¬(-((2 : Nat) : Int) ≤ (-1 : Int) ∧ (-1 : Int) < ((2 : Nat) : Int)) →
      getitem_int cW (-1) = (.error .indexError, cW, [])) ∧
    ((-((2 : Nat) : Int) ≤ (-1 : Int) ∧ (-1 : Int) < ((2 : Nat) : Int)) →
      (∃ v, (getitem_int cW (-1)).1 = .ok v) ∧
      getitem_int cW (-1) = getitem_int cW (IAUtils.pyNorm 2 (-1))) :=
  C6_index_range cW (fun k => k.length) rfl rfl (-1)

/-- C10: with the construction invariant and a never-failing resolver, for
`1 ≤ k ≤ n` the indices `-k` and `n - k` address the same memoization slot:
calling `get` at one and then at the other (in either order) returns the
identical value both times and invokes the resolver at most once in total. -/
theorem C10_negative_alias {α : Type} (c : IAUtils.IdentifierListAsItems α)
    (res : String → α) (hsess : c.session = fun k => .ok (res k))
    (hlen : c._items.length = c.ids.length) (k : Nat)
    (hk1 : 1 ≤ k) (hk2 : k ≤ c.ids.length) :
    ((getitem_int (getitem_int c (-(k : Int))).2.1 ((c.ids.length : Int) - k)).1
        = (getitem_int c (-(k : Int))).1 ∧
      (getitem_int (getitem_int c (-(k : Int))).2.1 ((c.ids.length : Int) - k)).2.2 = [] ∧
      (getitem_int c (-(k : Int))).2.2.length ≤ 1) ∧
    ((getitem_int (getitem_int c ((c.ids.length : Int) - k)).2.1 (-(k : Int))).1
        = (getitem_int c ((c.ids.length : Int) - k)).1 ∧
      (getitem_int (getitem_int c ((c.ids.length : Int) - k)).2.1 (-(k : Int))).2.2 = [] ∧
      (getitem_int c ((c.ids.length : Int) - k)).2.2.length ≤ 1) := by
  have hshift : getitem_int c (-(k : Int)) = getitem_int c ((c.ids.length : Int) - k) := by
    have h := @getitem_int_shift α c (-(k : Int)) hlen (by omega) (by omega)
    rw [h]
    congr 1
    omega
  obtain ⟨v, hok⟩ := getitem_int_total_ok hsess hlen
    (show -(c.ids.length : Int) ≤ ((c.ids.length : Int) - k) ∧
      ((c.ids.length : Int) - k) < (c.ids.length : Int) by omega)
  have hmemo := getitem_int_memo hlen hok
  constructor
  · rw [hshift]
    exact ⟨by rw [hmemo.1, hok], by rw [hmemo.1], hmemo.2⟩
  · -- second call at `-k` on the post-state: shift it to `n - k` first
    have hpres := getitem_int_preserves c ((c.ids.length : Int) - k)
    have hlen1 : (getitem_int c ((c.ids.length : Int) - k)).2.1._items.length
        = (getitem_int c ((c.ids.length : Int) - k)).2.1.ids.length := by
      rw [hpres.1, hpres.2.2.1]
      exact hlen
    have hids1 : (getitem_int c ((c.ids.length : Int) - k)).2.1.ids.length
        = c.ids.length := by
      rw [hpres.1]
    have hshift2 : getitem_int (getitem_int c ((c.ids.length : Int) - k)).2.1 (-(k : Int))
        = getitem_int (getitem_int c ((c.ids.length : Int) - k)).2.1
            ((c.ids.length : Int) - k) := by
      have h := @getitem_int_shift α
        ((getitem_int c ((c.ids.length : Int) - k)).2.1) (-(k : Int))
        hlen1 (by rw [hids1]; omega) (by omega)
      rw [h, hids1]
      congr 1
      omega
    rw [hshift2]
    exact ⟨by rw [hmemo.1, hok], by rw [hmemo.1], hmemo.2⟩

/-- Witness for C10 at the collection `cW` and `k = 2`. -/
theorem C10_witness :
    ((getitem_int (getitem_int cW (-((2 : Nat) : Int))).2.1 ((cW.ids.length : Int) - 2)).1
        = (getitem_int cW (-((2 : Nat) : Int))).1 ∧
      (getitem_int (getitem_int cW (-((2 : Nat) : Int))).2.1
          ((cW.ids.length : Int) - 2)).2.2 = [] ∧
      (getitem_int cW (-((2 : Nat) : Int))).2.2.length ≤ 1) ∧
    ((getitem_int (getitem_int cW ((cW.ids.length : Int) - 2)).2.1 (-((2 : Nat) : Int))).1
        = (getitem_int cW ((cW.ids.length : Int) - 2)).1 ∧
      (getitem_int (getitem_int cW ((cW.ids.length : Int) - 2)).2.1
          (-((2 : Nat) : Int))).2.2 = [] ∧
      (getitem_int cW ((cW.ids.length : Int) - 2)).2.2.length ≤ 1) :=
  C10_negative_alias cW (fun k => k.length) rfl rfl 2 (by decide) (by decide)

/-- C7: `len(keys) = len(resolved)` holds after construction and every
operation preserves both the key list and the number of slots; a resolved
slot is never changed again (transition at most once, never reset); and
`length()` equals the number of keys and never changes. -/
theorem C7_state_invariants {α : Type} (arg : IAUtils.IdArg)
    (session : String → Except IAUtils.PyExc α)
    (c : IAUtils.IdentifierListAsItems α) (idx : Int) (sl : IAUtils.PySlice)
    (name : String) :
    ((IAUtils.IdentifierListAsItems.init arg session)._items.length
      = (IAUtils.IdentifierListAsItems.init arg session).ids.length) ∧
    ((getitem_int c idx).2.1.ids = c.ids ∧
      (getitem_int c idx).2.1._items.length = c._items.length ∧
      ∀ (j : Nat) (w : α), c._items[j]? = some (some w) →
        (getitem_int c idx).2.1._items[j]? = some (some w)) ∧
    ((getitem_slice c sl).2.1.ids = c.ids ∧
      (getitem_slice c sl).2.1._items.length = c._items.length ∧
      ∀ (j : Nat) (w : α), c._items[j]? = some (some w) →
        (getitem_slice c sl).2.1._items[j]? = some (some w)) ∧
    ((IAUtils.IdentifierListAsItems.getattr c name).2.1.ids = c.ids ∧
      (IAUtils.IdentifierListAsItems.getattr c name).2.1._items.length = c._items.length ∧
      ∀ (j : Nat) (w : α), c._items[j]? = some (some w) →
        (IAUtils.IdentifierListAsItems.getattr c name).2.1._items[j]? = some (some w)) ∧
    (len c = c.ids.length ∧
      len (getitem_int c idx).2.1 = len c ∧
      len (getitem_slice c sl).2.1 = len c ∧
      len (IAUtils.IdentifierListAsItems.getattr c name).2.1 = len c) := by
  have h1 := getitem_int_preserves c idx
  have h2 := getitem_slice_preserves c sl
  have h3 := getattr_preserves c name
  refine ⟨by simp [IAUtils.IdentifierListAsItems.init],
    ⟨h1.1, h1.2.2.1, h1.2.2.2⟩, ⟨h2.1, h2.2.2.1, h2.2.2.2⟩,
    ⟨h3.1, h3.2.2.1, h3.2.2.2⟩, rfl, ?_, ?_, ?_⟩
  · show (getitem_int c idx).2.1.ids.length = c.ids.length
    rw [h1.1]
  · show (getitem_slice c sl).2.1.ids.length = c.ids.length
    rw [h2.1]
  · show (IAUtils.IdentifierListAsItems.getattr c name).2.1.ids.length = c.ids.length
    rw [h3.1]

/-- Collection whose resolver raises `ValueError` on every key: used to
refute C2 as stated. -/
def cBad : IAUtils.IdentifierListAsItems Nat :=
  IAUtils.IdentifierListAsItems.init (.list ["a"]) (fun _ => .error .valueError)

/-- C2 counterexample: on keys `["a"]` with a resolver that raises
`ValueError`, `get_by_name("a")` reports `AttributeError` — the resolver's
failure does NOT propagate unchanged (it is translated to another error
kind), refuting the claim as stated. -/
theorem C2_counterexample :
    (IAUtils.IdentifierListAsItems.getattr cBad "a").1 = .error .attributeError ∧
    (getitem_int cBad 0).1 = .error .valueError ∧
    IAUtils.PyExc.attributeError ≠ IAUtils.PyExc.valueError :=
  ⟨rfl, rfl, by decide⟩

/-- C2 (amended): a resolver failure during an integer `get` propagates to
the caller unchanged, the state is untouched (the slot stays unset), and a
later call on the same index re-invokes the resolver; during `get_by_name`
the same holds except that a `ValueError` raised by the resolver is
translated to `AttributeError`. -/
theorem C2_resolver_failure {α : Type} (c : IAUtils.IdentifierListAsItems α)
    (i : Int) (key : String) (e : IAUtils.PyExc)
    (h1 : IAUtils.pyGetL c._items i = .ok none)
    (h2 : IAUtils.pyGetL c.ids i = .ok key)
    (h3 : c.session key = .error e) :
    getitem_int c i = (.error e, c, [key]) ∧
    (getitem_int (getitem_int c i).2.1 i).2.2 = [key] ∧
    (∀ name : String, IAUtils.pyListIndexOf c.ids name = .ok i →
      IAUtils.IdentifierListAsItems.getattr c name =
        (.error (if e = .valueError then .attributeError else e), c, [key])) := by
  have hget := getitem_int_unset_err h1 h2 h3
  refine ⟨hget, by rw [hget]; rw [hget], fun name hn => ?_⟩
  have herr : (getitem_int c i).1 = .error e := by rw [hget]
  rw [getattr_found_err hn herr, hget]

/-- Witness for the amended C2 at the collection `cBad`, index `0`. -/
theorem C2_witness :
    getitem_int cBad 0 = (.error .valueError, cBad, ["a"]) ∧
    (getitem_int (getitem_int cBad 0).2.1 0).2.2 = ["a"] ∧
    (∀ name : String, IAUtils.pyListIndexOf cBad.ids name = .ok 0 →
      IAUtils.IdentifierListAsItems.getattr cBad name =
        (.error (if IAUtils.PyExc.valueError = IAUtils.PyExc.valueError
          then IAUtils.PyExc.attributeError else IAUtils.PyExc.valueError),
          cBad, ["a"])) :=
  C2_resolver_failure cBad 0 "a" .valueError rfl rfl rfl

/-- C4: with the construction invariant and a never-failing resolver,
`get_by_name(name)` with `name` found at index `i` is literally the call
`get(i)` (same value, state and resolver trace), a repeated
`get_by_name(name)` returns the same value without calling the resolver
(so at most one call across repeated calls), and with `name` absent it
fails with `AttributeError` without calling the resolver or touching the
state. -/
theorem C4_get_by_name {α : Type} (c : IAUtils.IdentifierListAsItems α)
    (res : String → α) (hsess : c.session = fun k => .ok (res k))
    (hlen : c._items.length = c.ids.length) (name : String) :
    (∀ i : Int, IAUtils.pyListIndexOf c.ids name = .ok i →
      IAUtils.IdentifierListAsItems.getattr c name = getitem_int c i ∧
      (IAUtils.IdentifierListAsItems.getattr
          (IAUtils.IdentifierListAsItems.getattr c name).2.1 name).1
        = (IAUtils.IdentifierListAsItems.getattr c name).1 ∧
      (IAUtils.IdentifierListAsItems.getattr
          (IAUtils.IdentifierListAsItems.getattr c name).2.1 name).2.2 = [] ∧
      (IAUtils.IdentifierListAsItems.getattr c name).2.2.length ≤ 1) ∧
    (∀ e : IAUtils.PyExc, IAUtils.pyListIndexOf c.ids name = .error e →
      IAUtils.IdentifierListAsItems.getattr c name = (.error .attributeError, c, [])) := by
  constructor
  · intro i hn
    obtain ⟨j, hij, hjget, _⟩ := IAUtils.pyListIndexOf_ok_spec hn
    have hjlt : j < c.ids.length := by
      rcases List.getElem?_eq_some.mp hjget with ⟨hlt, _⟩
      exact hlt
    have hin : -(c.ids.length : Int) ≤ i ∧ i < (c.ids.length : Int) := by
      subst hij
      constructor <;> omega
    obtain ⟨v, hok⟩ := getitem_int_total_ok hsess hlen hin
    have hga := getattr_found_ok hn hok
    have hmemo := getitem_int_memo hlen hok
    have hpres := getitem_int_preserves c i
    have hn2 : IAUtils.pyListIndexOf (getitem_int c i).2.1.ids name = .ok i := by
      rw [hpres.1]
      exact hn
    have hok2 : (getitem_int (getitem_int c i).2.1 i).1 = .ok v := by
      rw [hmemo.1]
    have hga2 := getattr_found_ok hn2 hok2
    refine ⟨hga, ?_, ?_, ?_⟩
    · rw [hga, hga2, hmemo.1, hok]
    · rw [hga, hga2, hmemo.1]
    · rw [hga]
      exact hmemo.2
  · intro e he
    have he' := IAUtils.pyIndexAux_error_eq he
    subst he'
    exact getattr_absent he

/-- Witness for C4 at the collection `cW` and name `"b"`. -/
theorem C4_witness :
    (∀ i : Int, IAUtils.pyListIndexOf cW.ids "b" = .ok i →
      IAUtils.IdentifierListAsItems.getattr cW "b" = getitem_int cW i ∧
      (IAUtils.IdentifierListAsItems.getattr
          (IAUtils.IdentifierListAsItems.getattr cW "b").2.1 "b").1
        = (IAUtils.IdentifierListAsItems.getattr cW "b").1 ∧
      (IAUtils.IdentifierListAsItems.getattr
          (IAUtils.IdentifierListAsItems.getattr cW "b").2.1 "b").2.2 = [] ∧
      (IAUtils.IdentifierListAsItems.getattr cW "b").2.2.length ≤ 1) ∧
    (∀ e : IAUtils.PyExc, IAUtils.pyListIndexOf cW.ids "b" = .error e →
      IAUtils.IdentifierListAsItems.getattr cW "b" = (.error .attributeError, cW, [])) :=
  C4_get_by_name cW (fun k => k.length) rfl rfl "b"

/-- C9: on a freshly constructed collection whose key list contains `name`
at more than one position, `get_by_name(name)` resolves exactly the slot of
the first (lowest-index) occurrence and returns its resolved value, leaving
every other slot — in particular the later duplicates — unset. -/
theorem C9_duplicate_keys {α : Type} (keys : List String) (res : String → α)
    (name : String) (hdup : 2 ≤ keys.count name) :
    ∃ j : Nat, IAUtils.pyListIndexOf keys name = .ok (j : Int) ∧
      keys[j]? = some name ∧ (∀ j' < j, keys[j']? ≠ some name) ∧
      IAUtils.IdentifierListAsItems.getattr
          (IAUtils.IdentifierListAsItems.init (.list keys) (fun k => .ok (res k))) name =
        (.ok (some (res name)),
          { ids := keys,
            _items := (List.replicate keys.length none).set j (some (res name)),
            session := fun k => .ok (res k) }, [name]) ∧
      ∀ j' : Nat, j' ≠ j → j' < keys.length →
        (IAUtils.IdentifierListAsItems.getattr
            (IAUtils.IdentifierListAsItems.init (.list keys) (fun k => .ok (res k)))
            name).2.1._items[j']? = some none := by
  have hm : name ∈ keys := by
    have : 0 < keys.count name := by omega
    exact List.count_pos_iff.mp this
  obtain ⟨i, hio⟩ := IAUtils.pyIndexAux_ok_of_mem hm 0
  have hio' : IAUtils.pyListIndexOf keys name = .ok i := hio
  obtain ⟨j, hij, hjget, hjfirst⟩ := IAUtils.pyListIndexOf_ok_spec hio'
  subst hij
  have hjlt : j < keys.length := by
    rcases List.getElem?_eq_some.mp hjget with ⟨hlt, _⟩
    exact hlt
  refine ⟨j, hio', hjget, hjfirst, ?_, ?_⟩
  all_goals {
    have hc : (IAUtils.IdentifierListAsItems.init (α := α) (.list keys)
        (fun k => .ok (res k))) =
        { ids := keys, _items := List.replicate keys.length none,
          session := fun k => .ok (res k) } := rfl
    have hnorm : IAUtils.pyNorm (List.replicate (α := Option α) keys.length none).length
        (j : Int) = (j : Int) := by
      rw [List.length_replicate]
      exact IAUtils.pyNorm_natCast _ _
    have hvalid : 0 ≤ IAUtils.pyNorm
          (List.replicate (α := Option α) keys.length none).length (j : Int) ∧
        IAUtils.pyNorm (List.replicate (α := Option α) keys.length none).length (j : Int)
          < ((List.replicate (α := Option α) keys.length none).length : Int) := by
      rw [hnorm, List.length_replicate]
      constructor <;> omega
    have h1 : IAUtils.pyGetL (List.replicate (α := Option α) keys.length none) (j : Int)
        = .ok none := by
      apply IAUtils.pyGetL_of_getElem? hvalid
      rw [hnorm]
      simp [List.getElem?_replicate, hjlt]
    have h2 : IAUtils.pyGetL keys (j : Int) = .ok name := by
      have hvalid2 : 0 ≤ IAUtils.pyNorm keys.length (j : Int) ∧
          IAUtils.pyNorm keys.length (j : Int) < (keys.length : Int) := by
        rw [IAUtils.pyNorm_natCast]
        constructor <;> omega
      apply IAUtils.pyGetL_of_getElem? hvalid2
      rw [IAUtils.pyNorm_natCast]
      simpa using hjget
    have hget := @getitem_int_unset_ok α
      { ids := keys, _items := List.replicate keys.length none,
        session := fun k => .ok (res k) } (j : Int) h1 name h2 (res name) rfl
    have hgetc : getitem_int (IAUtils.IdentifierListAsItems.init (.list keys)
        (fun k => .ok (res k))) (j : Int) =
        (.ok (some (res name)),
          { ids := keys,
            _items := (List.replicate keys.length none).set j (some (res name)),
            session := fun k => .ok (res k) }, [name]) := by
      rw [hc, hget, hnorm]
      simp
    have hga := getattr_found_ok (c := IAUtils.IdentifierListAsItems.init (.list keys)
        (fun k => .ok (res k))) hio' (v := some (res name)) (by rw [hgetc])
    first
      | (rw [hga, hgetc]; done)
      | (intro j' hne hlt
         rw [hga, hgetc]
         show ((List.replicate keys.length none).set j (some (res name)))[j']? = some none
         rw [List.getElem?_set_ne (Ne.symm hne)]
         simp [List.getElem?_replicate, hlt]) }

/-- Witness for C9 on keys `["a", "b", "a"]` with duplicate key `"a"`. -/
theorem C9_witness :
    ∃ j : Nat, IAUtils.pyListIndexOf ["a", "b", "a"] "a" = .ok (j : Int) ∧
      (["a", "b", "a"] : List String)[j]? = some "a" ∧
      (∀ j' < j, (["a", "b", "a"] : List String)[j']? ≠ some "a") ∧
      IAUtils.IdentifierListAsItems.getattr
          (IAUtils.IdentifierListAsItems.init (.list ["a", "b", "a"])
            (fun k => .ok k.length)) "a" =
        (.ok (some "a".length),
          { ids := ["a", "b", "a"],
            _items := (List.replicate (["a", "b", "a"] : List String).length none).set j
              (some "a".length),
            session := fun k => .ok k.length }, ["a"]) ∧
      ∀ j' : Nat, j' ≠ j → j' < (["a", "b", "a"] : List String).length →
        (IAUtils.IdentifierListAsItems.getattr
            (IAUtils.IdentifierListAsItems.init (.list ["a", "b", "a"])
              (fun k => .ok k.length)) "a").2.1._items[j']? = some none :=
  C9_duplicate_keys ["a", "b", "a"] (fun k => k.length) "a" (by decide)

/-- C3 counterexample: on a fresh collection with keys `["a", "b", "c"]` the
slice `[::-1]` resolves the selected slots in DESCENDING index order: the
resolver trace is `["c", "b", "a"]`, not the trace `["a", "b", "c"]` that
resolving the selected slots `{0, 1, 2}` in ascending index order would
produce.  This refutes the claim's "in ascending index order". -/
theorem C3_counterexample :
    (getitem_slice (IAUtils.IdentifierListAsItems.init (.list ["a", "b", "c"])
        (fun k => (.ok k.length : Except IAUtils.PyExc Nat)))
      ⟨none, none, some (-1)⟩).2.2 = ["c", "b", "a"] ∧
    (["c", "b", "a"] : List String) ≠ ["a", "b", "c"] :=
  ⟨rfl, by decide⟩

/-- C3 (amended): on a freshly constructed collection (all slots unset) with
a never-failing resolver, `get` with a valid slice resolves (memoizing)
exactly the slots the slice selects, in the slice's selection order —
ascending for a positive step, descending for a negative one — and returns
the resolved values as a sequence matching the selection order; an empty
selection yields an empty sequence with no resolver call (both maps over an
empty `pyRange`), and every slot outside the selection stays unset. -/
theorem C3_slice_resolution {α : Type} (keys : List String) (res : String → α)
    (s : IAUtils.PySlice) (st sp stp : Int)
    (hidx : s.indices keys.length = .ok (st, sp, stp)) :
    (getitem_slice (IAUtils.IdentifierListAsItems.init (.list keys)
        (fun k => .ok (res k))) s).1
      = .ok ((IAUtils.pyRange st sp stp).map
          (fun i => some (res (keys.getD i.toNat "")))) ∧
    (getitem_slice (IAUtils.IdentifierListAsItems.init (.list keys)
        (fun k => .ok (res k))) s).2.2
      = (IAUtils.pyRange st sp stp).map (fun i => keys.getD i.toNat "") ∧
    (∀ j : Nat, j < keys.length → ((j : Int) ∉ IAUtils.pyRange st sp stp) →
      (getitem_slice (IAUtils.IdentifierListAsItems.init (.list keys)
          (fun k => .ok (res k))) s).2.1._items[j]? = some none) := by
  have hc0 : IAUtils.IdentifierListAsItems.init (.list keys)
      (fun k => (.ok (res k) : Except IAUtils.PyExc α)) =
      { ids := keys, _items := List.replicate keys.length none,
        session := fun k => .ok (res k) } := rfl
  rw [hc0]
  have hstp0 : stp ≠ 0 := IAUtils.indices_step_ne hidx
  have hmem := IAUtils.indices_mem_range hidx
  have hlen0 : (List.replicate (α := Option α) keys.length none).length = keys.length :=
    List.length_replicate keys.length none
  have hin : ∀ i ∈ IAUtils.pyRange st sp stp, 0 ≤ i ∧
      i < (((List.replicate (α := Option α) keys.length none).length : Nat) : Int) := by
    intro i hi
    rw [hlen0]
    exact hmem i hi
  obtain ⟨ih1, ih2, ih3⟩ := resolveLoop_total res (IAUtils.pyRange st sp stp)
    { ids := keys, _items := List.replicate keys.length none,
      session := fun k => .ok (res k) }
    rfl (by simp) hin (IAUtils.pyRange_nodup st sp stp hstp0)
  simp only [] at ih2 ih3
  have hpres := resolveLoop_preserves
    { ids := keys, _items := List.replicate (α := Option α) keys.length none,
      session := fun k => .ok (res k) } (IAUtils.pyRange st sp stp)
  rcases hr : resolveLoop
      { ids := keys, _items := List.replicate (α := Option α) keys.length none,
        session := fun k => .ok (res k) } (IAUtils.pyRange st sp stp) with ⟨r, c1, t⟩
  rw [hr] at ih1 ih2 ih3 hpres
  simp only [] at ih1 ih2 ih3 hpres
  subst ih1
  have hlens : c1._items.length = keys.length := by
    rw [hpres.2.2.1]
    exact hlen0
  have hi2 : s.indices c1._items.length = .ok (st, sp, stp) := by
    rw [hlens]
    exact hidx
  have hrep : ∀ j : Nat, j < keys.length →
      (List.replicate (α := Option α) keys.length none)[j]? = some none := by
    intro j hj
    rw [List.getElem?_replicate]
    simp [hj]
  have hresolved : ∀ i ∈ IAUtils.pyRange st sp stp,
      c1._items[i.toNat]? = some (some (res (keys.getD i.toNat ""))) := by
    intro i hi
    have hib := hmem i hi
    have hjlt : i.toNat < keys.length := by omega
    rw [ih2 i.toNat]
    rw [if_pos ⟨by rw [Int.toNat_of_nonneg hib.1]; exact hi, by
      rw [hrep i.toNat hjlt]; rfl⟩]
  have hslice : IAUtils.pySliceL c1._items s
      = .ok ((IAUtils.pyRange st sp stp).map
          (fun i => some (res (keys.getD i.toNat "")))) := by
    unfold IAUtils.pySliceL
    rw [hi2]
    show Except.ok ((IAUtils.pyRange st sp stp).filterMap
      (fun i => c1._items[i.toNat]?)) = _
    congr 1
    apply IAUtils.filterMap_eq_map_of
    intro i hi
    exact hresolved i hi
  have hout : getitem_slice
      { ids := keys, _items := List.replicate (α := Option α) keys.length none,
        session := fun k => .ok (res k) } s
      = (.ok ((IAUtils.pyRange st sp stp).map
          (fun i => some (res (keys.getD i.toNat "")))), c1, t) := by
    rw [getitem_slice_eq hidx, hr]
    show (match IAUtils.pySliceL c1._items s with
      | .error e => ((.error e : Except IAUtils.PyExc (List (Option α))), c1, t)
      | .ok vs => (.ok vs, c1, t)) = _
    rw [hslice]
  rw [hout]
  refine ⟨rfl, ?_, ?_⟩
  · -- the trace: every selected slot is unset on the fresh state
    show t = _
    rw [ih3]
    have hfilter : (IAUtils.pyRange st sp stp).filter
        (fun i => IAUtils.isUnset ((List.replicate (α := Option α) keys.length none)[i.toNat]?))
        = IAUtils.pyRange st sp stp := by
      apply List.filter_eq_self.mpr
      intro i hi
      have hib := hmem i hi
      rw [hrep i.toNat (by omega)]
      rfl
    rw [hfilter]
  · intro j hj hnot
    show c1._items[j]? = some none
    rw [ih2 j, if_neg (fun hc => hnot hc.1)]
    exact hrep j hj

/-- Witness for the amended C3: keys `["a", "b", "c"]` and the slice
`[0:2]`, whose `indices` are `(0, 2, 1)`. -/
theorem C3_witness :
    (getitem_slice (IAUtils.IdentifierListAsItems.init (.list ["a", "b", "c"])
        (fun k => .ok k.length)) ⟨some 0, some 2, none⟩).1
      = .ok ((IAUtils.pyRange 0 2 1).map
          (fun i => some ((["a", "b", "c"] : List String).getD i.toNat "").length)) ∧
    (getitem_slice (IAUtils.IdentifierListAsItems.init (.list ["a", "b", "c"])
        (fun k => .ok k.length)) ⟨some 0, some 2, none⟩).2.2
      = (IAUtils.pyRange 0 2 1).map
          (fun i => (["a", "b", "c"] : List String).getD i.toNat "") ∧
    (∀ j : Nat, j < (["a", "b", "c"] : List String).length →
      ((j : Int) ∉ IAUtils.pyRange 0 2 1) →
      (getitem_slice (IAUtils.IdentifierListAsItems.init (.list ["a", "b", "c"])
          (fun k => .ok k.length)) ⟨some 0, some 2, none⟩).2.1._items[j]? = some none) :=
  C3_slice_resolution ["a", "b", "c"] (fun k => k.length) ⟨some 0, some 2, none⟩ 0 2 1 rfl
